import Mathlib

set_option maxRecDepth 16384

/-!
Verification development for the pixel-classification / color-quantization /
run-length-encoding subsystem of pdf2djvu (`src/image-filter.cc`).

The C++ code is shallowly embedded:
* a `pdf::Renderer` handle becomes a `Renderer` (an identity tag plus a
  row-major pixel function); pointer identity of the two handles is modelled
  by equality of the tags;
* machine integers become `Nat` (with `% 2 ^ 32` where `uint32_t` overflow
  matters);
* the output `std::ostream` becomes a `List Out` of emitted stream items;
* the caller-owned outputs `background_color`, `has_foreground` and
  `has_background` are threaded explicitly and returned.

The bitonal run-length writer `rle::R4` lives in `rle.hh`, which is not part
of the analyzed sources; its behaviour is modelled from the specification
(see `dummyQuantizer` and the `Out.bit` / `Out.run` stream items).
-/

/-- An RGB pixel: three 8-bit channel values (stored as `Nat`). -/
structure Rgb where
  r : Nat
  g : Nat
  b : Nat
deriving DecidableEq

/-- A renderer handle: an identity tag (modelling the C++ pointer, used by the
`out_fg == out_bg` fast-path test) plus the row-major pixel grid `pix y x`. -/
structure Renderer where
  tag : Nat
  pix : Nat → Nat → Rgb

/-- Items emitted on the output stream.  `header w h` is the ASCII
`"R6 w h "` token, `psize n` the palette-size line, `rgb` a raw 3-byte
palette triple, `word v` a 32-bit big-endian run word, and `bit` / `run`
are the bitonal (`rle::R4`) stream modelled at the decoded level. -/
inductive Out where
  | header (w h : Nat)
  | psize (n : Nat)
  | rgb (r g b : Nat)
  | word (v : Nat)
  | bit (b : Bool)
  | run (n : Nat)
deriving DecidableEq

/-- The pixel-classification test shared verbatim by all quantizers:
`p_fg[0] != p_bg[0] || p_fg[1] != p_bg[1] || p_fg[2] != p_bg[2]`. -/
def classify (pf pb : Rgb) : Bool :=
  (pf.r != pb.r) || (pf.g != pb.g) || (pf.b != pb.b)

/-- The foreground-flag test `p_fg[0] || p_fg[1] || p_fg[2]`:
true iff at least one channel of the fg pixel is non-zero. -/
def fgNonzero (pf : Rgb) : Bool :=
  (pf.r != 0) || (pf.g != 0) || (pf.b != 0)

/-- The background-flag test: the per-channel comparison of a bg pixel
against the sampled `background_color` (net effect of the early-exiting
channel loop). -/
def bgDiff (bc pb : Rgb) : Bool :=
  (bc.r != pb.r) || (bc.g != pb.g) || (bc.b != pb.b)

/-- The fg/bg pixel pairs of row `y`, in scan (iterator) order. -/
def rowPairs (fg bg : Renderer) (w y : Nat) : List (Rgb × Rgb) :=
  (List.range w).map fun x => (fg.pix y x, bg.pix y x)

/-- All rows of fg/bg pixel pairs, in scan order. -/
def pixRows (fg bg : Renderer) (w h : Nat) : List (List (Rgb × Rgb)) :=
  (List.range h).map fun y => rowPairs fg bg w y

/-- Encoding of a run word: `((uint32_t)color << 20) + length`,
computed in `uint32_t` arithmetic. -/
def wordEnc (c len : Nat) : Nat :=
  ((c <<< 20) + len) % 2 ^ 32

/-! ### The `Rgb18` color model (class `Rgb18` in the source)

An 18-bit key is a plain `Nat`; the sentinel "no color" value `Rgb18()`
(value `-1` in the source) is modelled as `Option Nat`'s `none`. -/

/-- `Rgb18(r, g, b)`: pack an 8-bit triple into an 18-bit key by dropping
each channel's low two bits: `(r >> 2) | ((g >> 2) << 6) | ((b >> 2) << 12)`. -/
def rgb18pack (r g b : Nat) : Nat :=
  (r >>> 2) ||| ((g >>> 2) <<< 6) ||| ((b >>> 2) <<< 12)

/-- `Rgb18::operator[]`: unpack channel `i` of a key back to an approximate
8-bit value: `(((value >> 6 i) << 2) & 0xff) | ((value >> (6 i + 4)) & 3)`. -/
def rgb18get (v i : Nat) : Nat :=
  (((v >>> (6 * i)) <<< 2) &&& 0xff) ||| ((v >>> (6 * i + 4)) &&& 3)

/-- `Rgb18::reduce(k)`: bucket each unpacked channel with divisor `k`
(`n = 256`, `c = (n + k - 1) / k`, `m = v * c / n`, reduced value
`(n - 1) * m / (c - 1)`) and repack.  The divisions here are total `Nat`
division; the source's divisions are defined only for `1 ≤ k ≤ 255`
(otherwise `/ k` or `/ (c - 1)` divides by zero) — `rgb18reduceChecked`
below marks that undefined region explicitly. -/
def rgb18reduce (k v : Nat) : Nat :=
  let n := 256
  let c := (n + k - 1) / k
  rgb18pack
    ((n - 1) * (rgb18get v 0 * c / n) / (c - 1))
    ((n - 1) * (rgb18get v 1 * c / n) / (c - 1))
    ((n - 1) * (rgb18get v 2 * c / n) / (c - 1))

/-- The palette-reduction formula as worded by the specification:
`c = ⌈256 / k⌉`; bucket `m = ⌊v * c / 256⌋`; reduced value
`⌊255 * m / (c - 1)⌋`; the three reduced channel values recombined into a
reduced Rgb18 key.  Used only to compare against `rgb18reduce`. -/
def specReduce (k v : Nat) : Nat :=
  let c := 256 ⌈/⌉ k
  rgb18pack
    (255 * (rgb18get v 0 * c / 256) / (c - 1))
    (255 * (rgb18get v 1 * c / 256) / (c - 1))
    (255 * (rgb18get v 2 * c / 256) / (c - 1))

lemma rgb18get_lt (v i : Nat) : rgb18get v i < 256 := by
  have h1 : ((v >>> (6 * i)) <<< 2) &&& 0xff < 256 :=
    Nat.lt_succ_of_le (Nat.and_le_right)
  have h2 : (v >>> (6 * i + 4)) &&& 3 < 256 :=
    Nat.lt_succ_of_le (le_trans Nat.and_le_right (by norm_num))
  have : ((v >>> (6 * i)) <<< 2) &&& 0xff < 2 ^ 8 := by simpa using h1
  have h2' : (v >>> (6 * i + 4)) &&& 3 < 2 ^ 8 := by simpa using h2
  simpa using Nat.bitwise_lt this h2'

/-! ### Ordered presence sets

The source tracks present colors in a `std::bitset<1 << 18>` and always
iterates it in ascending key order; an ascending duplicate-free list is the
same abstract object, with bit-setting becoming sorted insertion. -/

/-- Insert a key into an ascending duplicate-free list (setting a bit in an
ordered presence bitset). -/
def insertSorted (v : Nat) : List Nat → List Nat
  | [] => [v]
  | a :: rest =>
    if v < a then v :: a :: rest
    else if v = a then a :: rest
    else a :: insertSorted v rest

lemma insertSorted_mem (v x : Nat) (l : List Nat) :
    x ∈ insertSorted v l ↔ x = v ∨ x ∈ l := by
  induction l with
  | nil => simp [insertSorted]
  | cons a rest ih =>
    rw [insertSorted]
    split_ifs with h1 h2
    · simp
    · subst h2
      simp only [List.mem_cons]
      tauto
    · simp only [List.mem_cons, ih]
      tauto

lemma insertSorted_sorted (v : Nat) (l : List Nat) (h : List.Sorted (· < ·) l) :
    List.Sorted (· < ·) (insertSorted v l) := by
  induction l with
  | nil => simp [insertSorted]
  | cons a rest ih =>
    rw [List.sorted_cons] at h
    obtain ⟨ha, hrest⟩ := h
    rw [insertSorted]
    split_ifs with h1 h2
    · rw [List.sorted_cons]
      refine ⟨?_, List.sorted_cons.2 ⟨ha, hrest⟩⟩
      intro b hb
      rcases List.mem_cons.1 hb with rfl | hb
      · exact h1
      · exact lt_trans h1 (ha b hb)
    · subst h2
      exact List.sorted_cons.2 ⟨ha, hrest⟩
    · have hav : a < v := by omega
      rw [List.sorted_cons]
      refine ⟨?_, ih hrest⟩
      intro b hb
      rcases (insertSorted_mem v b rest).1 hb with rfl | hb
      · exact hav
      · exact ha b hb

lemma insertSorted_length_of_not_mem (v : Nat) (l : List Nat) (h : v ∉ l) :
    (insertSorted v l).length = l.length + 1 := by
  induction l with
  | nil => simp [insertSorted]
  | cons a rest ih =>
    simp only [List.mem_cons, not_or] at h
    by_cases h1 : v < a
    · simp [insertSorted, h1]
    · simp only [insertSorted, h1, if_false, h.1, List.length_cons]
      rw [ih h.2]

/-! ### Reference run-length coalescing

`runsOf` is the (value, length) list produced by the row loops of the
WebSafe and Default quantizers, `expandRuns` its decoder. -/

/-- Coalesce a list given a current run `(c, n)` already in progress. -/
def runsAux {α : Type} [DecidableEq α] : List α → α → Nat → List (α × Nat)
  | [], c, n => [(c, n)]
  | a :: rest, c, n =>
    if a = c then runsAux rest c (n + 1)
    else (c, n) :: runsAux rest a 1

/-- The maximal-run decomposition of a list. -/
def runsOf {α : Type} [DecidableEq α] : List α → List (α × Nat)
  | [] => []
  | a :: rest => runsAux rest a 1

/-- Decode a (value, length) list back to the value sequence. -/
def expandRuns {α : Type} : List (α × Nat) → List α
  | [] => []
  | (c, n) :: rest => List.replicate n c ++ expandRuns rest

lemma expandRuns_runsAux {α : Type} [DecidableEq α] (xs : List α) (c : α) (n : Nat) :
    expandRuns (runsAux xs c n) = List.replicate n c ++ xs := by
  induction xs generalizing c n with
  | nil => simp [runsAux, expandRuns]
  | cons a rest ih =>
    by_cases h : a = c
    · subst h
      rw [runsAux, if_pos rfl, ih]
      simp [List.replicate_succ']
    · rw [runsAux, if_neg h]
      rw [expandRuns, ih]
      simp

lemma expandRuns_runsOf {α : Type} [DecidableEq α] (xs : List α) :
    expandRuns (runsOf xs) = xs := by
  cases xs with
  | nil => rfl
  | cons a rest => rw [runsOf, expandRuns_runsAux]; simp [List.replicate]

lemma runsAux_replicate {α : Type} [DecidableEq α] (n : Nat) (c : α) (m : Nat) :
    runsAux (List.replicate n c) c m = [(c, m + n)] := by
  induction n generalizing m with
  | zero => simp [runsAux]
  | succ k ih =>
    rw [List.replicate_succ, runsAux, if_pos rfl, ih]
    have : m + 1 + k = m + (k + 1) := by omega
    rw [this]

lemma runsOf_replicate {α : Type} [DecidableEq α] (n : Nat) (c : α) (hn : 0 < n) :
    runsOf (List.replicate n c) = [(c, n)] := by
  cases n with
  | zero => omega
  | succ k =>
    rw [List.replicate_succ, runsOf, runsAux_replicate]
    have : 1 + k = k + 1 := by omega
    rw [this]

/-! ### Index maps

`std::map<int, uint32_t>` keyed by ascending color, built by iterating the
palette in ascending order assigning `last_color_index++`; `mapLookup`
models `operator[]` (whose default-inserted value is `0`). -/

/-- The (key, index) association list obtained by assigning indices
`i0, i0+1, ...` to the keys of `l` in list order. -/
def buildIndexMap : List Nat → Nat → List (Nat × Nat)
  | [], _ => []
  | a :: rest, i => (a, i) :: buildIndexMap rest (i + 1)

/-- Look a key up in an association list; absent keys give `0`
(the value `std::map::operator[]` default-inserts). -/
def mapLookup (m : List (Nat × Nat)) (k : Nat) : Nat :=
  match m.find? (fun p => p.1 == k) with
  | some p => p.2
  | none => 0

lemma mapLookup_buildIndexMap (l : List Nat) (hl : l.Nodup) (i0 : Nat) :
    ∀ i (h : i < l.length), mapLookup (buildIndexMap l i0) (l.get ⟨i, h⟩) = i0 + i := by
  induction l generalizing i0 with
  | nil => intro i h; simp at h
  | cons a rest ih =>
    intro i h
    rw [List.nodup_cons] at hl
    cases i with
    | zero => simp [buildIndexMap, mapLookup, List.find?]
    | succ j =>
      have hj : j < rest.length := by
        simp only [List.length_cons] at h
        omega
      have hne : a ≠ rest.get ⟨j, hj⟩ := by
        intro hcontra
        exact hl.1 (hcontra ▸ List.get_mem rest j hj)
      have hgc : (a :: rest).get ⟨j + 1, h⟩ = rest.get ⟨j, hj⟩ := rfl
      rw [hgc]
      simp only [buildIndexMap, mapLookup, List.find?]
      have hbeq : ((a, i0).1 == rest.get ⟨j, hj⟩) = false := by
        simpa using hne
      rw [hbeq]
      have := ih hl.2 (i0 + 1) j hj
      rw [mapLookup] at this
      rw [this]
      omega

/-! ### Dummy quantizer and fallback -/

/-- Modelled from the spec: the bitonal writer `rle::R4` (from `rle.hh`,
absent from the analyzed sources) is kept at the decoded-run level, so
`dummy_quantizer` — one `r4.output_run(width)` per row, then
`background_color[0..2] = 0xff` — becomes one all-background `Out.run`
item per row plus the white background color. -/
def dummyQuantizer (w h : Nat) : List Out × Rgb :=
  (List.replicate h (Out.run w), ⟨255, 255, 255⟩)

/-- `DummyQuantizer::operator()`: calls `dummy_quantizer` and touches
neither `has_foreground` nor `has_background`. -/
def dummyQuantizerOp (fg bg : Renderer) (w h : Nat) (bc0 : Rgb) (hf0 hb0 : Bool) :
    List Out × Rgb × Bool × Bool :=
  let (s, bc) := dummyQuantizer w h
  (s, bc, hf0, hb0)

/-! ### Mask quantizer

The `rle::R4` bit stream `r4 << 0 / r4 << 1` is modelled from the spec at
the decoded-bit level (`Out.bit`). -/

/-- The per-row pixel loop of `MaskQuantizer::operator()`. -/
def maskScanRow (bc : Rgb) : List (Rgb × Rgb) → Bool → Bool → List Out × Bool × Bool
  | [], hf, hb => ([], hf, hb)
  | (pf, pb) :: rest, hf, hb =>
    let hb := hb || bgDiff bc pb
    if classify pf pb then
      let hf := hf || fgNonzero pf
      let res := maskScanRow bc rest hf hb
      (Out.bit true :: res.1, res.2)
    else
      let res := maskScanRow bc rest hf hb
      (Out.bit false :: res.1, res.2)

/-- The row loop of `MaskQuantizer::operator()`. -/
def maskScanRows (bc : Rgb) : List (List (Rgb × Rgb)) → Bool → Bool → List Out × Bool × Bool
  | [], hf, hb => ([], hf, hb)
  | row :: rest, hf, hb =>
    let res := maskScanRow bc row hf hb
    let res2 := maskScanRows bc rest res.2.1 res.2.2
    (res.1 ++ res2.1, res2.2)

/-- `MaskQuantizer::operator()`: identical-handle fast path, else a bitonal
classification scan.  `background_color` is only read, never written. -/
def maskQuantizer (fg bg : Renderer) (w h : Nat) (bc0 : Rgb) (hf0 hb0 : Bool) :
    List Out × Rgb × Bool × Bool :=
  if fg.tag = bg.tag then
    let (s, bc) := dummyQuantizer w h
    (s, bc, hf0, true)
  else
    let res := maskScanRows bc0 (pixRows fg bg w h) hf0 hb0
    (res.1, bc0, res.2)

/-! ### WebSafe quantizer -/

/-- The WebSafe output index of a foreground pixel:
`((p_fg[2] + 1) / 43) + 6 * (((p_fg[1] + 1) / 43) + 6 * ((p_fg[0] + 1) / 43))`. -/
def wsIndex (pf : Rgb) : Nat :=
  (pf.b + 1) / 43 + 6 * ((pf.g + 1) / 43 + 6 * ((pf.r + 1) / 43))

/-- The `new_color` computed for one pixel by the WebSafe row loop. -/
def wsPix (p : Rgb × Rgb) : Nat :=
  if classify p.1 p.2 then wsIndex p.1 else 0xfff

/-- The per-row pixel loop of `WebSafeQuantizer::operator()`, carrying the
current run `(color, len)`; the trailing run is always flushed. -/
def wsScanRow (bc : Rgb) : List (Rgb × Rgb) → Bool → Bool → Nat → Nat → List Out × Bool × Bool
  | [], hf, hb, color, len => ([Out.word (wordEnc color len)], hf, hb)
  | (pf, pb) :: rest, hf, hb, color, len =>
    let hb := hb || bgDiff bc pb
    let hf := if classify pf pb then hf || fgNonzero pf else hf
    let newColor := wsPix (pf, pb)
    if color = newColor then wsScanRow bc rest hf hb color (len + 1)
    else
      let res := wsScanRow bc rest hf hb newColor 1
      (if 0 < len then Out.word (wordEnc color len) :: res.1 else res.1, res.2)

/-- The row loop of `WebSafeQuantizer::operator()`; each row starts a fresh
`color = 0xfff, length = 0` run state. -/
def wsScanRows (bc : Rgb) : List (List (Rgb × Rgb)) → Bool → Bool → List Out × Bool × Bool
  | [], hf, hb => ([], hf, hb)
  | row :: rest, hf, hb =>
    let res := wsScanRow bc row hf hb 0xfff 0
    let res2 := wsScanRows bc rest res.2.1 res.2.2
    (res.1 ++ res2.1, res2.2)

/-- `WebSafeQuantizer::output_web_palette`: the `216` palette-size line
followed by the 216 triples `{51 r, 51 g, 51 b}` in nested r/g/b loop order. -/
def webPaletteOut : List Out :=
  (List.range 6).flatMap fun r =>
    (List.range 6).flatMap fun g =>
      (List.range 6).map fun b => Out.rgb (51 * r) (51 * g) (51 * b)

/-- `WebSafeQuantizer::operator()`. -/
def webSafeQuantizer (fg bg : Renderer) (w h : Nat) (bc0 : Rgb) (hf0 hb0 : Bool) :
    List Out × Rgb × Bool × Bool :=
  if fg.tag = bg.tag then
    let (s, bc) := dummyQuantizer w h
    (s, bc, hf0, true)
  else
    let bc := bg.pix 0 0
    let res := wsScanRows bc (pixRows fg bg w h) hf0 hb0
    (Out.header w h :: Out.psize 216 :: (webPaletteOut ++ res.1), bc, res.2)

/-! ### Default (adaptive-palette) quantizer -/

/-- The mutable per-call analysis state of `DefaultQuantizer::operator()`:
the two caller flags, the distinct-color counter and the `original_colors`
presence set (as an ascending key list). -/
structure DSt where
  hf : Bool
  hb : Bool
  counter : Nat
  orig : List Nat
deriving DecidableEq

/-- The `new_color` (Rgb18 key, or sentinel `none`) computed for one pixel
by the Default pass-1 row loop. -/
def defPix (p : Rgb × Rgb) : Option Nat :=
  if classify p.1 p.2 then some (rgb18pack p.1.r p.1.g p.1.b) else none

/-- The flag, counter and presence-set update performed for one pixel by
the Default pass-1 loop (the straight-line head of the loop body). -/
def defStep (bc : Rgb) (st : DSt) (p : Rgb × Rgb) : DSt :=
  let st := { st with hb := st.hb || bgDiff bc p.2 }
  if classify p.1 p.2 then
    let st := { st with hf := st.hf || fgNonzero p.1 }
    let key := rgb18pack p.1.r p.1.g p.1.b
    if key ∈ st.orig then st
    else { st with counter := st.counter + 1, orig := insertSorted key st.orig }
  else st

/-- The pass-1 per-row pixel loop of `DefaultQuantizer::operator()`:
updates the flags and the presence set, and run-length-compresses the row
into `(key, length)` runs (`Run` objects); `cur` is the in-progress run,
`acc` the row's already-pushed runs. -/
def defScanRow (bc : Rgb) : List (Rgb × Rgb) → DSt → Option Nat × Nat →
    List (Option Nat × Nat) → DSt × List (Option Nat × Nat)
  | [], st, cur, acc => (st, if 0 < cur.2 then acc ++ [cur] else acc)
  | p :: rest, st, cur, acc =>
    let st := defStep bc st p
    let newColor := defPix p
    if cur.1 = newColor then defScanRow bc rest st (cur.1, cur.2 + 1) acc
    else if 0 < cur.2 then defScanRow bc rest st (newColor, 1) (acc ++ [cur])
    else defScanRow bc rest st (newColor, 1) acc

/-- The pass-1 row loop: each row starts a fresh empty `Run`. -/
def defScanRows (bc : Rgb) : List (List (Rgb × Rgb)) → DSt →
    DSt × List (List (Option Nat × Nat))
  | [], st => (st, [])
  | row :: rest, st =>
    let resRow := defScanRow bc row st (none, 0) []
    let resRest := defScanRows bc rest resRow.1
    (resRest.1, resRow.2 :: resRest.2)

/-- One scan of the palette-reduction search: reduce each present original
color with `divisor`, collect the distinct reduced keys and their count,
breaking as soon as the count exceeds `maxfg`.  (Total projection; the
fallible `reduceScanChecked` below is authoritative about definedness.) -/
def reduceScan (maxfg divisor : Nat) : List Nat → List Nat → Nat → List Nat × Nat
  | [], quant, cnt => (quant, cnt)
  | c :: rest, quant, cnt =>
    let nc := rgb18reduce divisor c
    if nc ∈ quant then reduceScan maxfg divisor rest quant cnt
    else
      if maxfg < cnt + 1 then (insertSorted nc quant, cnt + 1)
      else reduceScan maxfg divisor rest (insertSorted nc quant) (cnt + 1)

/-- The palette-reduction `while (color_counter > max_fg_colors)` loop,
written with explicit fuel (the source loop has none).  Returns the last
scan's reduced set, the final counter and the final divisor.  (Total
projection built on the total `reduceScan`; the fallible
`reduceLoopChecked` below tracks where the source's `Rgb18::reduce`
divides by zero.) -/
def reduceLoop (maxfg : Nat) (orig : List Nat) : Nat → Nat → Nat → List Nat →
    List Nat × Nat × Nat
  | 0, divisor, counter, quant => (quant, counter, divisor)
  | fuel + 1, divisor, counter, quant =>
    if counter ≤ maxfg then (quant, counter, divisor)
    else
      let res := reduceScan maxfg (divisor + 1) orig [] 0
      reduceLoop maxfg orig fuel (divisor + 1) res.2 res.1

/-- The palette-selection step after the loop: `if (divisor == 4)
quantized_colors = original_colors`.  Returns (final palette set, final
counter, final divisor). -/
def defaultReduce (maxfg : Nat) (orig : List Nat) (counter : Nat) : List Nat × Nat × Nat :=
  let res := reduceLoop maxfg orig 256 4 counter []
  (if res.2.2 = 4 then orig else res.1, res.2.1, res.2.2)

/-- The color-index map of `DefaultQuantizer::operator()` as a function:
sentinel `-1 ↦ 0xfff`; without reduction an original color gets its rank in
the ascending original set; with reduction a color is first reduced with
the final divisor, then given its representative's rank in the ascending
final palette (`std::map` lookups default-insert `0` for absent keys). -/
def defColorMap (divisor : Nat) (orig quant : List Nat) : Option Nat → Nat
  | none => 0xfff
  | some key =>
    if divisor = 4 then mapLookup (buildIndexMap orig 0) key
    else mapLookup (buildIndexMap quant 0) (rgb18reduce divisor key)

/-- The palette block: `1` plus a white triple when no foreground color was
kept, else the count and each palette color's reconstructed triple in
ascending key order. -/
def paletteBlock (counter : Nat) (quant : List Nat) : List Out :=
  if counter = 0 then [Out.psize 1, Out.rgb 255 255 255]
  else Out.psize counter :: quant.map fun c => Out.rgb (rgb18get c 0) (rgb18get c 1) (rgb18get c 2)

/-- Replay of the pass-1 run lists: each run's key is translated through
the color map and emitted as a 32-bit `(index << 20) + length` word. -/
def runWords (cmap : Option Nat → Nat) (runs : List (List (Option Nat × Nat))) : List Out :=
  runs.flatMap fun row => row.map fun r => Out.word (wordEnc (cmap r.1) r.2)

/-- Pass 1 of `DefaultQuantizer::operator()` (non-identical handles):
sample `background_color` from the first bg pixel and run the full scan,
yielding the final analysis state and the per-row run lists. -/
def defaultAnalysis (fg bg : Renderer) (w h : Nat) (hf0 hb0 : Bool) :
    DSt × List (List (Option Nat × Nat)) :=
  defScanRows (bg.pix 0 0) (pixRows fg bg w h) ⟨hf0, hb0, 0, []⟩

/-- `DefaultQuantizer::operator()`.  The reduction stage here is the total
projection, faithful exactly where the reduction search completes without
`Rgb18::reduce`'s division by zero; `defaultQuantizerChecked` below is the
fallible, fully faithful pipeline, and `defaultQuantizerChecked_agree`
shows the two agree on the defined region. -/
def defaultQuantizer (maxfg : Nat) (fg bg : Renderer) (w h : Nat) (bc0 : Rgb)
    (hf0 hb0 : Bool) : List Out × Rgb × Bool × Bool :=
  if fg.tag = bg.tag then
    let (s, bc) := dummyQuantizer w h
    (s, bc, hf0, true)
  else
    let bc := bg.pix 0 0
    let res := defaultAnalysis fg bg w h hf0 hb0
    let red := defaultReduce maxfg res.1.orig res.1.counter
    (Out.header w h ::
       (paletteBlock red.2.1 red.1 ++
         runWords (defColorMap red.2.2 res.1.orig red.1) res.2),
     bc, res.1.hf, res.1.hb)

/-! ### GraphicsMagick quantizer (capability not compiled in) -/

/-- The single error kind of the subsystem. -/
inductive QError where
  | notImplemented
deriving DecidableEq

/-- The GraphicsMagick variant when `HAVE_GRAPHICSMAGICK` is not defined:
the constructor `GraphicsMagickQuantizer::GraphicsMagickQuantizer` throws
`NotImplementedError`, so every use of the variant fails before its
(unreachable, empty) `operator()` could run — no stream item is produced. -/
def graphicsMagickQuantizer (fg bg : Renderer) (w h : Nat) (bc0 : Rgb)
    (hf0 hb0 : Bool) : Except QError (List Out × Rgb × Bool × Bool) :=
  Except.error QError.notImplemented

/-! ### Scan lemmas: Mask -/

lemma maskScanRow_out (bc : Rgb) (ps : List (Rgb × Rgb)) (hf hb : Bool) :
    (maskScanRow bc ps hf hb).1 = ps.map fun p => Out.bit (classify p.1 p.2) := by
  induction ps generalizing hf hb with
  | nil => rfl
  | cons p rest ih =>
    obtain ⟨pf, pb⟩ := p
    rw [maskScanRow]
    by_cases h : classify pf pb
    · simp only [h, if_true, ih, List.map_cons]
    · simp only [h, if_false, ih, List.map_cons, Bool.false_eq_true]

lemma maskScanRow_flags (bc : Rgb) (ps : List (Rgb × Rgb)) (hf hb : Bool) :
    (maskScanRow bc ps hf hb).2 =
      (hf || ps.any fun p => classify p.1 p.2 && fgNonzero p.1,
       hb || ps.any fun p => bgDiff bc p.2) := by
  induction ps generalizing hf hb with
  | nil => simp [maskScanRow]
  | cons p rest ih =>
    obtain ⟨pf, pb⟩ := p
    rw [maskScanRow]
    by_cases h : classify pf pb
    · simp only [h, if_true, ih, List.any_cons]
      simp [Prod.mk.injEq, Bool.or_assoc]
    · simp only [h, if_false, ih, List.any_cons, Bool.false_eq_true]
      simp [Prod.mk.injEq, Bool.or_assoc]

lemma maskScanRows_out (bc : Rgb) (rows : List (List (Rgb × Rgb))) (hf hb : Bool) :
    (maskScanRows bc rows hf hb).1 =
      rows.flatMap fun row => row.map fun p => Out.bit (classify p.1 p.2) := by
  induction rows generalizing hf hb with
  | nil => rfl
  | cons row rest ih =>
    rw [maskScanRows]
    simp only [maskScanRow_out, ih, List.flatMap_cons]

lemma maskScanRows_flags (bc : Rgb) (rows : List (List (Rgb × Rgb))) (hf hb : Bool) :
    (maskScanRows bc rows hf hb).2 =
      (hf || rows.any fun row => row.any fun p => classify p.1 p.2 && fgNonzero p.1,
       hb || rows.any fun row => row.any fun p => bgDiff bc p.2) := by
  induction rows generalizing hf hb with
  | nil => simp [maskScanRows]
  | cons row rest ih =>
    rw [maskScanRows]
    simp only [maskScanRow_flags, ih, List.any_cons]
    simp [Prod.mk.injEq, Bool.or_assoc]

/-! ### Scan lemmas: WebSafe -/

lemma wsScanRow_flags (bc : Rgb) (ps : List (Rgb × Rgb)) :
    ∀ (hf hb : Bool) (c n : Nat),
    (wsScanRow bc ps hf hb c n).2 =
      (hf || ps.any fun p => classify p.1 p.2 && fgNonzero p.1,
       hb || ps.any fun p => bgDiff bc p.2) := by
  induction ps with
  | nil =>
    intro hf hb c n
    simp [wsScanRow]
  | cons p rest ih =>
    intro hf hb c n
    obtain ⟨pf, pb⟩ := p
    simp only [wsScanRow]
    by_cases hcl : classify pf pb <;> by_cases heq : c = wsPix (pf, pb) <;>
      simp [hcl, heq, ih, List.any_cons, Prod.mk.injEq, Bool.or_assoc]

lemma wsScanRow_out (bc : Rgb) (ps : List (Rgb × Rgb)) :
    ∀ (hf hb : Bool) (c n : Nat), 0 < n →
    (wsScanRow bc ps hf hb c n).1 =
      (runsAux (ps.map wsPix) c n).map fun r => Out.word (wordEnc r.1 r.2) := by
  induction ps with
  | nil =>
    intro hf hb c n hn
    simp [wsScanRow, runsAux]
  | cons p rest ih =>
    intro hf hb c n hn
    obtain ⟨pf, pb⟩ := p
    simp only [wsScanRow, List.map_cons]
    by_cases heq : c = wsPix (pf, pb)
    · rw [if_pos heq, runsAux, if_pos heq.symm]
      exact ih _ _ _ _ (by omega)
    · have hne2 : ¬(wsPix (pf, pb) = c) := fun hh => heq hh.symm
      rw [runsAux, if_neg hne2]
      simp only [heq, if_false, hn, if_true, List.map_cons]
      rw [ih _ _ _ _ Nat.one_pos]

lemma wsScanRow_out_start (bc : Rgb) (ps : List (Rgb × Rgb)) (hf hb : Bool)
    (hps : ps ≠ []) :
    (wsScanRow bc ps hf hb 0xfff 0).1 =
      (runsOf (ps.map wsPix)).map fun r => Out.word (wordEnc r.1 r.2) := by
  cases ps with
  | nil => exact absurd rfl hps
  | cons p rest =>
    obtain ⟨pf, pb⟩ := p
    simp only [wsScanRow, List.map_cons, runsOf]
    by_cases heq : (0xfff : Nat) = wsPix (pf, pb)
    · rw [if_pos heq, wsScanRow_out bc rest _ _ _ _ (by norm_num), heq]
    · rw [if_neg heq]
      simp only [Nat.lt_irrefl, if_false]
      rw [wsScanRow_out bc rest _ _ _ _ (by norm_num)]

lemma wsScanRows_out (bc : Rgb) (rows : List (List (Rgb × Rgb))) :
    ∀ (hf hb : Bool), (∀ row ∈ rows, row ≠ []) →
    (wsScanRows bc rows hf hb).1 =
      rows.flatMap fun row =>
        (runsOf (row.map wsPix)).map fun r => Out.word (wordEnc r.1 r.2) := by
  induction rows with
  | nil =>
    intro hf hb _
    rfl
  | cons row rest ih =>
    intro hf hb hrows
    rw [wsScanRows]
    simp only [List.flatMap_cons]
    rw [wsScanRow_out_start bc row hf hb (hrows row (by simp))]
    rw [ih _ _ (fun r hr => hrows r (by simp [hr]))]

lemma wsScanRows_flags (bc : Rgb) (rows : List (List (Rgb × Rgb))) :
    ∀ (hf hb : Bool),
    (wsScanRows bc rows hf hb).2 =
      (hf || rows.any fun row => row.any fun p => classify p.1 p.2 && fgNonzero p.1,
       hb || rows.any fun row => row.any fun p => bgDiff bc p.2) := by
  induction rows with
  | nil =>
    intro hf hb
    simp [wsScanRows]
  | cons row rest ih =>
    intro hf hb
    rw [wsScanRows]
    simp only [wsScanRow_flags, ih, List.any_cons]
    simp [Prod.mk.injEq, Bool.or_assoc]

/-! ### Scan lemmas: Default pass 1 -/

lemma defStep_hf (bc : Rgb) (st : DSt) (p : Rgb × Rgb) :
    (defStep bc st p).hf = (st.hf || (classify p.1 p.2 && fgNonzero p.1)) := by
  rw [defStep]
  by_cases h : classify p.1 p.2
  · simp only [h, if_true, Bool.true_and]
    by_cases h2 : rgb18pack p.1.r p.1.g p.1.b ∈ st.orig <;> simp [h2]
  · simp [h]

lemma defStep_hb (bc : Rgb) (st : DSt) (p : Rgb × Rgb) :
    (defStep bc st p).hb = (st.hb || bgDiff bc p.2) := by
  rw [defStep]
  by_cases h : classify p.1 p.2
  · simp only [h, if_true]
    by_cases h2 : rgb18pack p.1.r p.1.g p.1.b ∈ st.orig <;> simp [h2]
  · simp [h]

lemma defStep_inv (bc : Rgb) (st : DSt) (p : Rgb × Rgb)
    (h1 : st.counter = st.orig.length) (h2 : List.Sorted (· < ·) st.orig) :
    (defStep bc st p).counter = (defStep bc st p).orig.length ∧
      List.Sorted (· < ·) (defStep bc st p).orig := by
  rw [defStep]
  by_cases h : classify p.1 p.2
  · simp only [h, if_true]
    by_cases h3 : rgb18pack p.1.r p.1.g p.1.b ∈ st.orig
    · simpa [h3] using ⟨h1, h2⟩
    · simp only [h3, if_false]
      refine ⟨?_, insertSorted_sorted _ _ h2⟩
      simp [insertSorted_length_of_not_mem _ _ h3, h1]
  · simpa [h] using ⟨h1, h2⟩

lemma defScanRow_state (bc : Rgb) (ps : List (Rgb × Rgb)) :
    ∀ st cur acc, (defScanRow bc ps st cur acc).1 = ps.foldl (defStep bc) st := by
  induction ps with
  | nil =>
    intro st cur acc
    rfl
  | cons p rest ih =>
    intro st cur acc
    simp only [defScanRow, List.foldl_cons]
    split_ifs <;> apply ih

lemma defScanRow_runs (bc : Rgb) (ps : List (Rgb × Rgb)) :
    ∀ st c n acc, 0 < n →
    (defScanRow bc ps st (c, n) acc).2 = acc ++ runsAux (ps.map defPix) c n := by
  induction ps with
  | nil =>
    intro st c n acc hn
    simp [defScanRow, runsAux, hn]
  | cons p rest ih =>
    intro st c n acc hn
    simp only [defScanRow, List.map_cons]
    by_cases heq : c = defPix p
    · have hne2 : defPix p = c := heq.symm
      rw [if_pos heq, runsAux, if_pos hne2]
      exact ih _ _ _ _ (by omega)
    · have hne2 : ¬(defPix p = c) := fun hh => heq hh.symm
      rw [runsAux, if_neg hne2]
      simp only [heq, if_false, hn, if_true]
      rw [ih _ _ _ _ Nat.one_pos]
      simp [List.append_assoc]

lemma defScanRow_runs_start (bc : Rgb) (ps : List (Rgb × Rgb)) (st : DSt)
    (hps : ps ≠ []) :
    (defScanRow bc ps st (none, 0) []).2 = runsOf (ps.map defPix) := by
  cases ps with
  | nil => exact absurd rfl hps
  | cons p rest =>
    simp only [defScanRow, List.map_cons, runsOf]
    by_cases heq : (none : Option Nat) = defPix p
    · rw [if_pos heq, defScanRow_runs bc rest _ _ _ _ Nat.one_pos, heq]
      simp
    · rw [if_neg heq]
      simp only [Nat.lt_irrefl, if_false]
      rw [defScanRow_runs bc rest _ _ _ _ Nat.one_pos]
      simp

lemma defScanRows_state (bc : Rgb) (rows : List (List (Rgb × Rgb))) :
    ∀ st, (defScanRows bc rows st).1 =
      rows.foldl (fun s row => row.foldl (defStep bc) s) st := by
  induction rows with
  | nil =>
    intro st
    rfl
  | cons row rest ih =>
    intro st
    simp only [defScanRows, List.foldl_cons]
    rw [ih, defScanRow_state]

lemma defScanRows_runs (bc : Rgb) (rows : List (List (Rgb × Rgb))) :
    ∀ st, (∀ row ∈ rows, row ≠ []) →
    (defScanRows bc rows st).2 = rows.map fun row => runsOf (row.map defPix) := by
  induction rows with
  | nil =>
    intro st _
    rfl
  | cons row rest ih =>
    intro st hrows
    simp only [defScanRows, List.map_cons]
    rw [defScanRow_runs_start bc row st (hrows row (by simp))]
    rw [ih _ (fun r hr => hrows r (by simp [hr]))]

lemma foldl_defStep_hf (bc : Rgb) (ps : List (Rgb × Rgb)) :
    ∀ st : DSt, (ps.foldl (defStep bc) st).hf =
      (st.hf || ps.any fun p => classify p.1 p.2 && fgNonzero p.1) := by
  induction ps with
  | nil =>
    intro st
    simp
  | cons p rest ih =>
    intro st
    rw [List.foldl_cons, ih, defStep_hf, List.any_cons, Bool.or_assoc]

lemma foldl2_defStep_hf (bc : Rgb) (rows : List (List (Rgb × Rgb))) :
    ∀ st : DSt, (rows.foldl (fun s row => row.foldl (defStep bc) s) st).hf =
      (st.hf || rows.any fun row => row.any fun p => classify p.1 p.2 && fgNonzero p.1) := by
  induction rows with
  | nil =>
    intro st
    simp
  | cons row rest ih =>
    intro st
    rw [List.foldl_cons, ih, foldl_defStep_hf, List.any_cons, Bool.or_assoc]

lemma foldl_defStep_inv (bc : Rgb) (ps : List (Rgb × Rgb)) :
    ∀ st : DSt, st.counter = st.orig.length → List.Sorted (· < ·) st.orig →
      (ps.foldl (defStep bc) st).counter = (ps.foldl (defStep bc) st).orig.length ∧
        List.Sorted (· < ·) (ps.foldl (defStep bc) st).orig := by
  induction ps with
  | nil =>
    intro st h1 h2
    exact ⟨h1, h2⟩
  | cons p rest ih =>
    intro st h1 h2
    have := defStep_inv bc st p h1 h2
    simpa using ih (defStep bc st p) this.1 this.2

lemma foldl2_defStep_inv (bc : Rgb) (rows : List (List (Rgb × Rgb))) :
    ∀ st : DSt, st.counter = st.orig.length → List.Sorted (· < ·) st.orig →
      (rows.foldl (fun s row => row.foldl (defStep bc) s) st).counter =
          (rows.foldl (fun s row => row.foldl (defStep bc) s) st).orig.length ∧
        List.Sorted (· < ·) (rows.foldl (fun s row => row.foldl (defStep bc) s) st).orig := by
  induction rows with
  | nil =>
    intro st h1 h2
    exact ⟨h1, h2⟩
  | cons row rest ih =>
    intro st h1 h2
    have := foldl_defStep_inv bc row st h1 h2
    simpa using ih _ this.1 this.2

lemma classify_self (p : Rgb) : classify p p = false := by
  simp [classify]

lemma foldl_defStep_allbg (bc : Rgb) (ps : List (Rgb × Rgb)) :
    ∀ st : DSt, (∀ p ∈ ps, p.1 = p.2) →
      ps.foldl (defStep bc) st = { st with hb := st.hb || ps.any fun p => bgDiff bc p.2 } := by
  induction ps with
  | nil =>
    intro st _
    simp
  | cons p rest ih =>
    intro st hps
    have hcl : classify p.1 p.2 = false := by
      rw [hps p (by simp)]
      exact classify_self p.2
    have hstep : defStep bc st p = { st with hb := st.hb || bgDiff bc p.2 } := by
      rw [defStep, hcl]
      simp
    simp only [List.foldl_cons, hstep, ih _ (fun q hq => hps q (by simp [hq])), List.any_cons]
    simp [Bool.or_assoc]

lemma foldl2_defStep_allbg (bc : Rgb) (rows : List (List (Rgb × Rgb))) :
    ∀ st : DSt, (∀ row ∈ rows, ∀ p ∈ row, p.1 = p.2) →
      rows.foldl (fun s row => row.foldl (defStep bc) s) st =
        { st with hb := st.hb || rows.any fun row => row.any fun p => bgDiff bc p.2 } := by
  induction rows with
  | nil =>
    intro st _
    simp
  | cons row rest ih =>
    intro st hrows
    simp only [List.foldl_cons, foldl_defStep_allbg bc row st (hrows row (by simp)),
      ih _ (fun r hr => hrows r (by simp [hr])), List.any_cons]
    simp [Bool.or_assoc]

lemma map_defPix_allbg (ps : List (Rgb × Rgb)) (h : ∀ p ∈ ps, p.1 = p.2) :
    ps.map defPix = List.replicate ps.length none := by
  induction ps with
  | nil => rfl
  | cons p rest ih =>
    have hcl : classify p.1 p.2 = false := by
      rw [h p (by simp)]
      exact classify_self p.2
    simp only [List.map_cons, List.length_cons, List.replicate_succ, defPix, hcl]
    simp [ih (fun q hq => h q (by simp [hq]))]

/-! ### Row and word auxiliaries -/

lemma rowPairs_length (fg bg : Renderer) (w y : Nat) : (rowPairs fg bg w y).length = w := by
  simp [rowPairs]

lemma rowPairs_ne_nil (fg bg : Renderer) (w y : Nat) (hw : 0 < w) :
    rowPairs fg bg w y ≠ [] := by
  intro hcontra
  have := rowPairs_length fg bg w y
  rw [hcontra] at this
  simp at this
  omega

lemma pixRows_length (fg bg : Renderer) (w h : Nat) : (pixRows fg bg w h).length = h := by
  simp [pixRows]

lemma mem_pixRows_ne_nil (fg bg : Renderer) (w h : Nat) (hw : 0 < w) :
    ∀ row ∈ pixRows fg bg w h, row ≠ [] := by
  intro row hrow
  simp only [pixRows, List.mem_map] at hrow
  obtain ⟨y, _, rfl⟩ := hrow
  exact rowPairs_ne_nil fg bg w y hw

lemma mem_pixRows_length (fg bg : Renderer) (w h : Nat) :
    ∀ row ∈ pixRows fg bg w h, row.length = w := by
  intro row hrow
  simp only [pixRows, List.mem_map] at hrow
  obtain ⟨y, _, rfl⟩ := hrow
  exact rowPairs_length fg bg w y

lemma mem_pixRows_eqpix (fg bg : Renderer) (w h : Nat)
    (heq : ∀ y, y < h → ∀ x, x < w → fg.pix y x = bg.pix y x) :
    ∀ row ∈ pixRows fg bg w h, ∀ p ∈ row, p.1 = p.2 := by
  intro row hrow p hp
  simp only [pixRows, List.mem_map] at hrow
  obtain ⟨y, hy, rfl⟩ := hrow
  simp only [rowPairs, List.mem_map] at hp
  obtain ⟨x, hx, rfl⟩ := hp
  simp only [List.mem_range] at hy hx
  exact heq y hy x hx

lemma wordEnc_eq (c len : Nat) (hc : c ≤ 0xfff) (hlen : len ≤ 0xFFFFF) :
    wordEnc c len = c * 2 ^ 20 + len := by
  rw [wordEnc, Nat.shiftLeft_eq]
  apply Nat.mod_eq_of_lt
  have h1 : c * 2 ^ 20 ≤ 0xfff * 2 ^ 20 := Nat.mul_le_mul_right _ hc
  omega

lemma wsIndex_le (pf : Rgb) (h8r : pf.r ≤ 255) (h8g : pf.g ≤ 255) (h8b : pf.b ≤ 255) :
    wsIndex pf ≤ 215 := by
  rw [wsIndex]
  have hr : (pf.r + 1) / 43 ≤ 5 := by
    have : (pf.r + 1) / 43 ≤ 256 / 43 := Nat.div_le_div_right (by omega)
    omega
  have hg : (pf.g + 1) / 43 ≤ 5 := by
    have : (pf.g + 1) / 43 ≤ 256 / 43 := Nat.div_le_div_right (by omega)
    omega
  have hb : (pf.b + 1) / 43 ≤ 5 := by
    have : (pf.b + 1) / 43 ≤ 256 / 43 := Nat.div_le_div_right (by omega)
    omega
  omega

/-- The "some pixel is classified foreground with a not-pure-black fg
color" test, over the whole image. -/
def anyFgPixel (fg bg : Renderer) (w h : Nat) : Bool :=
  (pixRows fg bg w h).any fun row => row.any fun p => classify p.1 p.2 && fgNonzero p.1

/-! ### Claim theorems -/

/-- Claim C4: for every 18-bit color key and divisor `k ≥ 2` with
`c = ⌈256 / k⌉ ≥ 2`, `Rgb18::reduce` computes exactly the specification's
formula: unpack each channel, bucket `m = ⌊v c / 256⌋`, reduce to
`⌊255 m / (c - 1)⌋`, and repack the three reduced channels. -/
theorem claim_C4 (k v : Nat) (hv : v < 2 ^ 18) (hk : 2 ≤ k) (hc : 2 ≤ 256 ⌈/⌉ k) :
    rgb18reduce k v = specReduce k v := rfl

theorem claim_C4_witness :
    (12345 < 2 ^ 18 ∧ 2 ≤ 4 ∧ 2 ≤ 256 ⌈/⌉ 4) ∧
      rgb18reduce 4 12345 = specReduce 4 12345 :=
  ⟨⟨by decide, by decide, by decide⟩, claim_C4 4 12345 (by decide) (by decide) (by decide)⟩

/-- Claim C5: for every foreground pixel with 8-bit channels the WebSafe
quantizer emits the index `⌊(B+1)/43⌋ + 6 (⌊(G+1)/43⌋ + 6 ⌊(R+1)/43⌋)`,
which always lies in `[0, 215]`; the 216-entry palette it always emits has
at position `i` exactly the color `(51 (i/36), 51 ((i/6) % 6), 51 (i % 6))`. -/
theorem claim_C5 (pf pb : Rgb) (h8r : pf.r ≤ 255) (h8g : pf.g ≤ 255) (h8b : pf.b ≤ 255) :
    wsIndex pf = (pf.b + 1) / 43 + 6 * ((pf.g + 1) / 43 + 6 * ((pf.r + 1) / 43)) ∧
    wsIndex pf ≤ 215 ∧
    (classify pf pb = true → wsPix (pf, pb) = wsIndex pf) ∧
    webPaletteOut.length = 216 ∧
    (∀ i, i < 216 → webPaletteOut[i]? =
      some (Out.rgb (51 * (i / 36)) (51 * ((i / 6) % 6)) (51 * (i % 6)))) := by
  refine ⟨rfl, wsIndex_le pf h8r h8g h8b, ?_, by decide, by decide⟩
  intro hcl
  simp [wsPix, hcl]

theorem claim_C5_witness :
    ((200 : Nat) ≤ 255 ∧ (0 : Nat) ≤ 255 ∧ (0 : Nat) ≤ 255) ∧
      (wsIndex ⟨200, 0, 0⟩ =
          (0 + 1) / 43 + 6 * ((0 + 1) / 43 + 6 * ((200 + 1) / 43)) ∧
        wsIndex ⟨200, 0, 0⟩ ≤ 215 ∧
        (classify ⟨200, 0, 0⟩ ⟨10, 10, 10⟩ = true →
          wsPix (⟨200, 0, 0⟩, ⟨10, 10, 10⟩) = wsIndex ⟨200, 0, 0⟩) ∧
        webPaletteOut.length = 216 ∧
        (∀ i, i < 216 → webPaletteOut[i]? =
          some (Out.rgb (51 * (i / 36)) (51 * ((i / 6) % 6)) (51 * (i % 6))))) :=
  ⟨⟨by decide, by decide, by decide⟩,
    claim_C5 ⟨200, 0, 0⟩ ⟨10, 10, 10⟩ (by decide) (by decide) (by decide)⟩

/-- Claim C6: with identical fg/bg handles each classifying quantizer
(Mask, WebSafe, Default) skips classification and returns exactly the dummy
encoding — one all-background full-width run per row, white
`background_color` — with `has_background` forced true and `has_foreground`
unchanged. -/
theorem claim_C6 (maxfg : Nat) (fg bg : Renderer) (w h : Nat) (bc0 : Rgb)
    (hf0 hb0 : Bool) (htag : fg.tag = bg.tag) (hw : 0 < w) (hh : 0 < h) :
    maskQuantizer fg bg w h bc0 hf0 hb0 =
      (List.replicate h (Out.run w), ⟨255, 255, 255⟩, hf0, true) ∧
    webSafeQuantizer fg bg w h bc0 hf0 hb0 =
      (List.replicate h (Out.run w), ⟨255, 255, 255⟩, hf0, true) ∧
    defaultQuantizer maxfg fg bg w h bc0 hf0 hb0 =
      (List.replicate h (Out.run w), ⟨255, 255, 255⟩, hf0, true) ∧
    dummyQuantizer w h = (List.replicate h (Out.run w), ⟨255, 255, 255⟩) := by
  refine ⟨?_, ?_, ?_, rfl⟩ <;>
    simp [maskQuantizer, webSafeQuantizer, defaultQuantizer, htag, dummyQuantizer]

theorem claim_C6_witness :
    ((0 : Nat) = 0 ∧ 0 < 2 ∧ 0 < 3) ∧
      (maskQuantizer ⟨0, fun _ _ => ⟨1, 2, 3⟩⟩ ⟨0, fun _ _ => ⟨4, 5, 6⟩⟩ 2 3 ⟨9, 9, 9⟩ false false =
          (List.replicate 3 (Out.run 2), ⟨255, 255, 255⟩, false, true) ∧
        webSafeQuantizer ⟨0, fun _ _ => ⟨1, 2, 3⟩⟩ ⟨0, fun _ _ => ⟨4, 5, 6⟩⟩ 2 3 ⟨9, 9, 9⟩ false false =
          (List.replicate 3 (Out.run 2), ⟨255, 255, 255⟩, false, true) ∧
        defaultQuantizer 8 ⟨0, fun _ _ => ⟨1, 2, 3⟩⟩ ⟨0, fun _ _ => ⟨4, 5, 6⟩⟩ 2 3 ⟨9, 9, 9⟩ false false =
          (List.replicate 3 (Out.run 2), ⟨255, 255, 255⟩, false, true) ∧
        dummyQuantizer 2 3 = (List.replicate 3 (Out.run 2), ⟨255, 255, 255⟩)) :=
  ⟨⟨rfl, by decide, by decide⟩,
    claim_C6 8 ⟨0, fun _ _ => ⟨1, 2, 3⟩⟩ ⟨0, fun _ _ => ⟨4, 5, 6⟩⟩ 2 3 ⟨9, 9, 9⟩ false false
      rfl (by decide) (by decide)⟩

/-- Claim C7 (amended): invoking the Dummy quantizer writes one
all-background full-width bitonal run per row, sets `background_color`
to pure white, never raises `has_foreground` — and leaves `has_background`
unchanged (the claim said it would end up `true`; the operator never
touches that flag). -/
theorem claim_C7 (fg bg : Renderer) (w h : Nat) (bc0 : Rgb) (hf0 hb0 : Bool)
    (hw : 0 < w) (hh : 0 < h) :
    dummyQuantizerOp fg bg w h bc0 hf0 hb0 =
      (List.replicate h (Out.run w), ⟨255, 255, 255⟩, hf0, hb0) := rfl

theorem claim_C7_counterexample :
    ¬ (dummyQuantizerOp ⟨0, fun _ _ => ⟨0, 0, 0⟩⟩ ⟨0, fun _ _ => ⟨0, 0, 0⟩⟩
        1 1 ⟨0, 0, 0⟩ false false).2.2.2 = true := by
  decide

theorem claim_C7_witness :
    (0 < 1 ∧ 0 < 2) ∧
      dummyQuantizerOp ⟨0, fun _ _ => ⟨0, 0, 0⟩⟩ ⟨1, fun _ _ => ⟨0, 0, 0⟩⟩
          1 2 ⟨7, 7, 7⟩ false false =
        (List.replicate 2 (Out.run 1), ⟨255, 255, 255⟩, false, false) :=
  ⟨⟨by decide, by decide⟩,
    claim_C7 ⟨0, fun _ _ => ⟨0, 0, 0⟩⟩ ⟨1, fun _ _ => ⟨0, 0, 0⟩⟩ 1 2 ⟨7, 7, 7⟩ false false
      (by decide) (by decide)⟩

/-- Claim C9: with the GraphicsMagick capability not compiled in, every
invocation of that quantizer variant fails with `NotImplementedError`
(thrown by the constructor) before any stream item is produced. -/
theorem claim_C9 (fg bg : Renderer) (w h : Nat) (bc0 : Rgb) (hf0 hb0 : Bool) :
    graphicsMagickQuantizer fg bg w h bc0 hf0 hb0 = Except.error QError.notImplemented := rfl

/-- Claim C10: with distinct fg/bg handles, the Mask quantizer leaves the
caller's `background_color` untouched, while WebSafe and Default overwrite
it with the bg image's first pixel. -/
theorem claim_C10 (maxfg : Nat) (fg bg : Renderer) (w h : Nat) (bc0 : Rgb)
    (hf0 hb0 : Bool) (htag : fg.tag ≠ bg.tag) :
    (maskQuantizer fg bg w h bc0 hf0 hb0).2.1 = bc0 ∧
    (webSafeQuantizer fg bg w h bc0 hf0 hb0).2.1 = bg.pix 0 0 ∧
    (defaultQuantizer maxfg fg bg w h bc0 hf0 hb0).2.1 = bg.pix 0 0 := by
  refine ⟨?_, ?_, ?_⟩ <;>
    simp [maskQuantizer, webSafeQuantizer, defaultQuantizer, htag]

theorem claim_C10_witness :
    (0 : Nat) ≠ 1 ∧
      ((maskQuantizer ⟨0, fun _ _ => ⟨1, 2, 3⟩⟩ ⟨1, fun _ _ => ⟨4, 5, 6⟩⟩ 1 1 ⟨9, 9, 9⟩ false false).2.1 =
          ⟨9, 9, 9⟩ ∧
        (webSafeQuantizer ⟨0, fun _ _ => ⟨1, 2, 3⟩⟩ ⟨1, fun _ _ => ⟨4, 5, 6⟩⟩ 1 1 ⟨9, 9, 9⟩ false false).2.1 =
          (⟨1, fun _ _ => (⟨4, 5, 6⟩ : Rgb)⟩ : Renderer).pix 0 0 ∧
        (defaultQuantizer 8 ⟨0, fun _ _ => ⟨1, 2, 3⟩⟩ ⟨1, fun _ _ => ⟨4, 5, 6⟩⟩ 1 1 ⟨9, 9, 9⟩ false false).2.1 =
          (⟨1, fun _ _ => (⟨4, 5, 6⟩ : Rgb)⟩ : Renderer).pix 0 0) :=
  ⟨by decide,
    claim_C10 8 ⟨0, fun _ _ => ⟨1, 2, 3⟩⟩ ⟨1, fun _ _ => ⟨4, 5, 6⟩⟩ 1 1 ⟨9, 9, 9⟩ false false
      (by decide)⟩

/-! ### Default-pipeline pass-1 invariant -/

lemma defaultAnalysis_inv (fg bg : Renderer) (w h : Nat) (hf0 hb0 : Bool) :
    (defaultAnalysis fg bg w h hf0 hb0).1.counter =
        (defaultAnalysis fg bg w h hf0 hb0).1.orig.length ∧
      List.Sorted (· < ·) (defaultAnalysis fg bg w h hf0 hb0).1.orig := by
  rw [defaultAnalysis, defScanRows_state]
  exact foldl2_defStep_inv _ _ ⟨hf0, hb0, 0, []⟩ rfl (by simp)

/-- The fg handle of the spec's concrete two-pixel scenario. -/
def fgSample : Renderer :=
  ⟨0, fun _ x => if x = 0 then ⟨10, 10, 10⟩ else ⟨200, 0, 0⟩⟩

/-- The bg handle of the spec's concrete two-pixel scenario. -/
def bgSample : Renderer :=
  ⟨1, fun _ _ => ⟨10, 10, 10⟩⟩

/-! ### Claim C8 -/

lemma map_const_replicate {α β : Type} (l : List α) (b : β) :
    (l.map fun _ => b) = List.replicate l.length b := by
  induction l with
  | nil => rfl
  | cons a rest ih => simp [List.replicate_succ, ih]

lemma reduceLoop_of_le (maxfg : Nat) (orig : List Nat) (f d c : Nat) (q : List Nat)
    (hc : c ≤ maxfg) : reduceLoop maxfg orig (f + 1) d c q = (q, c, d) := by
  rw [reduceLoop]
  simp [hc]

lemma runWords_replicate (cmap : Option Nat → Nat) (h : Nat) (r : Option Nat × Nat) :
    runWords cmap (List.replicate h [r]) =
      List.replicate h (Out.word (wordEnc (cmap r.1) r.2)) := by
  induction h with
  | zero => rfl
  | succ k ih =>
    simp only [List.replicate_succ, runWords, List.flatMap_cons, List.map_cons,
      List.map_nil] at ih ⊢
    simp [ih]

/-- Claim C8: with distinct handles and no pixel classified foreground, the
Default quantizer emits palette size `1` with a single white entry, and
every run word carries the sentinel index `0xfff` — one full-width word per
row (so exactly one for a single-row image). -/
theorem claim_C8 (maxfg : Nat) (fg bg : Renderer) (w h : Nat) (bc0 : Rgb)
    (hf0 hb0 : Bool) (htag : fg.tag ≠ bg.tag) (hw : 0 < w) (hh : 0 < h)
    (hwlen : w ≤ 0xFFFFF)
    (heq : ∀ y, y < h → ∀ x, x < w → fg.pix y x = bg.pix y x) :
    (defaultQuantizer maxfg fg bg w h bc0 hf0 hb0).1 =
      Out.header w h :: Out.psize 1 :: Out.rgb 255 255 255 ::
        List.replicate h (Out.word (0xfff * 2 ^ 20 + w)) := by
  have hall := mem_pixRows_eqpix fg bg w h heq
  have hst : (defaultAnalysis fg bg w h hf0 hb0).1 =
      { hf := hf0,
        hb := hb0 || (pixRows fg bg w h).any fun row => row.any fun p => bgDiff (bg.pix 0 0) p.2,
        counter := 0, orig := [] } := by
    rw [defaultAnalysis, defScanRows_state]
    exact foldl2_defStep_allbg (bg.pix 0 0) (pixRows fg bg w h) ⟨hf0, hb0, 0, []⟩ hall
  have horig : (defaultAnalysis fg bg w h hf0 hb0).1.orig = [] := by rw [hst]
  have hcnt : (defaultAnalysis fg bg w h hf0 hb0).1.counter = 0 := by rw [hst]
  have hruns : (defaultAnalysis fg bg w h hf0 hb0).2 =
      List.replicate h [((none : Option Nat), w)] := by
    rw [defaultAnalysis, defScanRows_runs _ _ _ (mem_pixRows_ne_nil fg bg w h hw)]
    have hmapc : (pixRows fg bg w h).map (fun row => runsOf (row.map defPix)) =
        (pixRows fg bg w h).map (fun _ => [((none : Option Nat), w)]) := by
      apply List.map_congr_left
      intro row hrow
      rw [map_defPix_allbg row (hall row hrow), mem_pixRows_length fg bg w h row hrow]
      exact runsOf_replicate w none hw
    rw [hmapc, map_const_replicate, pixRows_length]
  have hred : defaultReduce maxfg [] 0 = ([], 0, 4) := by
    have h256 : (256 : Nat) = 255 + 1 := rfl
    rw [defaultReduce, h256, reduceLoop_of_le maxfg [] 255 4 0 [] (Nat.zero_le maxfg)]
    simp
  simp only [defaultQuantizer, htag, if_false]
  rw [horig, hcnt, hruns, hred]
  rw [runWords_replicate]
  have hwenc : wordEnc 0xfff w = 0xfff * 2 ^ 20 + w := wordEnc_eq 0xfff w (le_refl _) hwlen
  simp [paletteBlock, defColorMap, hwenc]

theorem claim_C8_witness :
    (bgSample.tag ≠ 2 ∧ 0 < 3 ∧ 0 < 1 ∧ 3 ≤ 0xFFFFF) ∧
      (defaultQuantizer 8 (Renderer.mk 2 bgSample.pix) bgSample 3 1 ⟨9, 9, 9⟩ false false).1 =
        Out.header 3 1 :: Out.psize 1 :: Out.rgb 255 255 255 ::
          List.replicate 1 (Out.word (0xfff * 2 ^ 20 + 3)) :=
  ⟨⟨by decide, by decide, by decide, by decide⟩,
    claim_C8 8 (Renderer.mk 2 bgSample.pix) bgSample 3 1 ⟨9, 9, 9⟩ false false
      (by decide) (by decide) (by decide) (by decide) (fun y _ x _ => rfl)⟩

/-! ### Claim C1 -/

/-- Claim C1: with distinct handles of equal positive dimensions, in all
three classifying quantizers a pixel is classified foreground exactly when
its fg RGB differs from its bg RGB: the Mask bit stream is the per-pixel
classification map, the WebSafe and Default run lists are the lossless RLE
of the per-pixel indices/keys (sentinel exactly on non-differing pixels),
and `has_foreground` is raised exactly when some differing pixel has a
non-black fg color — a pure-black differing pixel never raises it. -/
theorem claim_C1 (maxfg : Nat) (fg bg : Renderer) (w h : Nat) (bc0 : Rgb)
    (hf0 hb0 : Bool) (htag : fg.tag ≠ bg.tag) (hw : 0 < w) (hh : 0 < h)
    (h8 : ∀ y, y < h → ∀ x, x < w →
      (fg.pix y x).r ≤ 255 ∧ (fg.pix y x).g ≤ 255 ∧ (fg.pix y x).b ≤ 255) :
    (maskQuantizer fg bg w h bc0 hf0 hb0).1 =
      (pixRows fg bg w h).flatMap (fun row => row.map fun p => Out.bit (classify p.1 p.2)) ∧
    (webSafeQuantizer fg bg w h bc0 hf0 hb0).1 =
      Out.header w h :: Out.psize 216 ::
        (webPaletteOut ++ (pixRows fg bg w h).flatMap fun row =>
          (runsOf (row.map wsPix)).map fun r => Out.word (wordEnc r.1 r.2)) ∧
    (∀ row ∈ pixRows fg bg w h, expandRuns (runsOf (row.map wsPix)) = row.map wsPix) ∧
    (∀ y, y < h → ∀ x, x < w →
      (wsPix (fg.pix y x, bg.pix y x) = 0xfff ↔
        classify (fg.pix y x) (bg.pix y x) = false)) ∧
    (defaultAnalysis fg bg w h hf0 hb0).2 =
      (pixRows fg bg w h).map (fun row => runsOf (row.map defPix)) ∧
    (∀ row ∈ pixRows fg bg w h, expandRuns (runsOf (row.map defPix)) = row.map defPix) ∧
    (∀ p : Rgb × Rgb, defPix p = none ↔ classify p.1 p.2 = false) ∧
    (maskQuantizer fg bg w h bc0 hf0 hb0).2.2.1 = (hf0 || anyFgPixel fg bg w h) ∧
    (webSafeQuantizer fg bg w h bc0 hf0 hb0).2.2.1 = (hf0 || anyFgPixel fg bg w h) ∧
    (defaultQuantizer maxfg fg bg w h bc0 hf0 hb0).2.2.1 = (hf0 || anyFgPixel fg bg w h) := by
  refine ⟨?_, ?_, ?_, ?_, ?_, ?_, ?_, ?_, ?_, ?_⟩
  · simp only [maskQuantizer, htag, if_false]
    exact maskScanRows_out bc0 (pixRows fg bg w h) hf0 hb0
  · simp only [webSafeQuantizer, htag, if_false]
    rw [wsScanRows_out (bg.pix 0 0) (pixRows fg bg w h) hf0 hb0
      (mem_pixRows_ne_nil fg bg w h hw)]
  · intro row _
    exact expandRuns_runsOf _
  · intro y hy x hx
    rw [wsPix]
    by_cases hcl : classify (fg.pix y x) (bg.pix y x)
    · have hle : wsIndex (fg.pix y x) ≤ 215 :=
        wsIndex_le _ (h8 y hy x hx).1 (h8 y hy x hx).2.1 (h8 y hy x hx).2.2
      simp only [hcl, if_true]
      constructor
      · intro hcontra
        omega
      · intro hcontra
        simp [hcl] at hcontra
    · simp [hcl]
  · rw [defaultAnalysis]
    exact defScanRows_runs (bg.pix 0 0) (pixRows fg bg w h) ⟨hf0, hb0, 0, []⟩
      (mem_pixRows_ne_nil fg bg w h hw)
  · intro row _
    exact expandRuns_runsOf _
  · intro p
    rw [defPix]
    by_cases hcl : classify p.1 p.2 <;> simp [hcl]
  · simp only [maskQuantizer, htag, if_false]
    rw [maskScanRows_flags]
    simp [anyFgPixel]
  · simp only [webSafeQuantizer, htag, if_false]
    rw [wsScanRows_flags]
    simp [anyFgPixel]
  · simp only [defaultQuantizer, htag, if_false]
    rw [defaultAnalysis, defScanRows_state, foldl2_defStep_hf]
    simp [anyFgPixel]

theorem claim_C1_witness :
    (fgSample.tag ≠ bgSample.tag ∧ 0 < 2 ∧ 0 < 1 ∧
      (∀ y, y < 1 → ∀ x, x < 2 →
        (fgSample.pix y x).r ≤ 255 ∧ (fgSample.pix y x).g ≤ 255 ∧
          (fgSample.pix y x).b ≤ 255)) ∧
    ((maskQuantizer fgSample bgSample 2 1 ⟨10, 10, 10⟩ false false).1 =
        (pixRows fgSample bgSample 2 1).flatMap
          (fun row => row.map fun p => Out.bit (classify p.1 p.2)) ∧
      (webSafeQuantizer fgSample bgSample 2 1 ⟨10, 10, 10⟩ false false).1 =
        Out.header 2 1 :: Out.psize 216 ::
          (webPaletteOut ++ (pixRows fgSample bgSample 2 1).flatMap fun row =>
            (runsOf (row.map wsPix)).map fun r => Out.word (wordEnc r.1 r.2)) ∧
      (∀ row ∈ pixRows fgSample bgSample 2 1,
        expandRuns (runsOf (row.map wsPix)) = row.map wsPix) ∧
      (∀ y, y < 1 → ∀ x, x < 2 →
        (wsPix (fgSample.pix y x, bgSample.pix y x) = 0xfff ↔
          classify (fgSample.pix y x) (bgSample.pix y x) = false)) ∧
      (defaultAnalysis fgSample bgSample 2 1 false false).2 =
        (pixRows fgSample bgSample 2 1).map (fun row => runsOf (row.map defPix)) ∧
      (∀ row ∈ pixRows fgSample bgSample 2 1,
        expandRuns (runsOf (row.map defPix)) = row.map defPix) ∧
      (∀ p : Rgb × Rgb, defPix p = none ↔ classify p.1 p.2 = false) ∧
      (maskQuantizer fgSample bgSample 2 1 ⟨10, 10, 10⟩ false false).2.2.1 =
        (false || anyFgPixel fgSample bgSample 2 1) ∧
      (webSafeQuantizer fgSample bgSample 2 1 ⟨10, 10, 10⟩ false false).2.2.1 =
        (false || anyFgPixel fgSample bgSample 2 1) ∧
      (defaultQuantizer 8 fgSample bgSample 2 1 ⟨10, 10, 10⟩ false false).2.2.1 =
        (false || anyFgPixel fgSample bgSample 2 1)) :=
  ⟨⟨by decide, by decide, by decide, by decide⟩,
    claim_C1 8 fgSample bgSample 2 1 ⟨10, 10, 10⟩ false false
      (by decide) (by decide) (by decide) (by decide)⟩

/-! ### The fallible reduction pipeline

`Rgb18::reduce` divides by `k` (computing `c`) and then by `c - 1`; for
`k = 0` or `c = 1` (any `k ≥ 256`) that is integer division by zero —
undefined behavior in the source.  The following variants make that
definedness explicit (`none` = the program crashes with a division by
zero); on the defined region they agree with the total model above. -/

/-- `Rgb18::reduce(k)` with definedness made explicit: `some` of
`rgb18reduce` when the bucket count `c = ⌈256 / k⌉` is at least `2` (so
the source's division by `c - 1` is well defined), `none` where the
source divides by zero (`k = 0` or `k ≥ 256`). -/
def rgb18reduceChecked (k v : Nat) : Option Nat :=
  let c := (256 + k - 1) / k
  if 2 ≤ c then some (rgb18reduce k v) else none

lemma rgb18reduceChecked_eq (k v : Nat) (h1 : 1 ≤ k) (h2 : k ≤ 255) :
    rgb18reduceChecked k v = some (rgb18reduce k v) := by
  have hc : 2 ≤ (255 + k) / k := by
    rw [Nat.le_div_iff_mul_le (by omega)]
    omega
  simp [rgb18reduceChecked, hc]

lemma rgb18reduceChecked_none (k v : Nat) (hk : 256 ≤ k) :
    rgb18reduceChecked k v = none := by
  have hc : (255 + k) / k < 2 := by
    rw [Nat.div_lt_iff_lt_mul (by omega)]
    omega
  simp [rgb18reduceChecked]
  omega

lemma rgb18reduceChecked_some_eq (k v nc : Nat)
    (h : rgb18reduceChecked k v = some nc) : nc = rgb18reduce k v := by
  simp only [rgb18reduceChecked] at h
  by_cases hc : 2 ≤ (256 + k - 1) / k
  · rw [if_pos hc] at h
    exact (Option.some.inj h).symm
  · rw [if_neg hc] at h
    exact absurd h (by simp)

/-- The reduction scan with the division-by-zero of `Rgb18::reduce` made
explicit: `none` as soon as a reduce call is undefined. -/
def reduceScanChecked (maxfg divisor : Nat) : List Nat → List Nat → Nat →
    Option (List Nat × Nat)
  | [], quant, cnt => some (quant, cnt)
  | c :: rest, quant, cnt =>
    match rgb18reduceChecked divisor c with
    | none => none
    | some nc =>
      if nc ∈ quant then reduceScanChecked maxfg divisor rest quant cnt
      else
        if maxfg < cnt + 1 then some (insertSorted nc quant, cnt + 1)
        else reduceScanChecked maxfg divisor rest (insertSorted nc quant) (cnt + 1)

/-- The palette-reduction loop over the fallible scan; fuel exhaustion and
a division-by-zero crash both yield `none` ("the search did not complete
normally within the given number of iterations"). -/
def reduceLoopChecked (maxfg : Nat) (orig : List Nat) : Nat → Nat → Nat → List Nat →
    Option (List Nat × Nat × Nat)
  | 0, _, _, _ => none
  | fuel + 1, divisor, counter, quant =>
    if counter ≤ maxfg then some (quant, counter, divisor)
    else
      match reduceScanChecked maxfg (divisor + 1) orig [] 0 with
      | none => none
      | some res => reduceLoopChecked maxfg orig fuel (divisor + 1) res.2 res.1

lemma reduceScanChecked_agree (maxfg d : Nat) (l : List Nat) :
    ∀ quant cnt r, reduceScanChecked maxfg d l quant cnt = some r →
      reduceScan maxfg d l quant cnt = r := by
  induction l with
  | nil =>
    intro quant cnt r hr
    rw [reduceScanChecked] at hr
    rw [reduceScan]
    exact Option.some.inj hr
  | cons c rest ih =>
    intro quant cnt r hr
    rw [reduceScanChecked] at hr
    rw [reduceScan]
    cases hrc : rgb18reduceChecked d c with
    | none =>
      rw [hrc] at hr
      exact absurd hr (by simp)
    | some nc =>
      rw [hrc] at hr
      simp only at hr
      have hnc := rgb18reduceChecked_some_eq d c nc hrc
      rw [← hnc]
      by_cases hmem : nc ∈ quant
      · simp only [hmem, if_true] at hr ⊢
        exact ih quant cnt r hr
      · simp only [hmem, if_false] at hr ⊢
        by_cases hbrk : maxfg < cnt + 1
        · simp only [hbrk, if_true] at hr ⊢
          exact Option.some.inj hr
        · simp only [hbrk, if_false] at hr ⊢
          exact ih _ _ r hr

lemma reduceLoopChecked_agree (maxfg : Nat) (orig : List Nat) :
    ∀ f d c q r, reduceLoopChecked maxfg orig f d c q = some r →
      reduceLoop maxfg orig f d c q = r := by
  intro f
  induction f with
  | zero =>
    intro d c q r hr
    exact absurd hr (by simp [reduceLoopChecked])
  | succ f ih =>
    intro d c q r hr
    rw [reduceLoopChecked] at hr
    rw [reduceLoop]
    by_cases hc : c ≤ maxfg
    · simp only [hc, if_true] at hr ⊢
      exact Option.some.inj hr
    · simp only [hc, if_false] at hr ⊢
      cases hsc : reduceScanChecked maxfg (d + 1) orig [] 0 with
      | none =>
        rw [hsc] at hr
        exact absurd hr (by simp)
      | some res =>
        rw [hsc] at hr
        simp only at hr
        rw [reduceScanChecked_agree maxfg (d + 1) orig [] 0 res hsc]
        exact ih (d + 1) res.2 res.1 r hr

lemma reduceScanChecked_inv (maxfg d : Nat) (l : List Nat) :
    ∀ quant cnt r, cnt = quant.length → List.Sorted (· < ·) quant →
      reduceScanChecked maxfg d l quant cnt = some r →
      r.2 = r.1.length ∧ List.Sorted (· < ·) r.1 := by
  induction l with
  | nil =>
    intro quant cnt r h1 h2 hr
    rw [reduceScanChecked] at hr
    have := Option.some.inj hr
    subst this
    exact ⟨h1, h2⟩
  | cons c rest ih =>
    intro quant cnt r h1 h2 hr
    rw [reduceScanChecked] at hr
    cases hrc : rgb18reduceChecked d c with
    | none =>
      rw [hrc] at hr
      exact absurd hr (by simp)
    | some nc =>
      rw [hrc] at hr
      simp only at hr
      by_cases hmem : nc ∈ quant
      · simp only [hmem, if_true] at hr
        exact ih quant cnt r h1 h2 hr
      · simp only [hmem, if_false] at hr
        have hlen : cnt + 1 = (insertSorted nc quant).length := by
          rw [insertSorted_length_of_not_mem _ _ hmem, h1]
        have hsort := insertSorted_sorted nc quant h2
        by_cases hbrk : maxfg < cnt + 1
        · simp only [hbrk, if_true] at hr
          have := Option.some.inj hr
          subst this
          exact ⟨hlen, hsort⟩
        · simp only [hbrk, if_false] at hr
          exact ih _ _ r hlen hsort hr

lemma reduceScanChecked_isSome (maxfg d : Nat) (h1 : 1 ≤ d) (h2 : d ≤ 255) (l : List Nat) :
    ∀ quant cnt, ∃ r, reduceScanChecked maxfg d l quant cnt = some r := by
  induction l with
  | nil =>
    intro quant cnt
    exact ⟨(quant, cnt), rfl⟩
  | cons c rest ih =>
    intro quant cnt
    rw [reduceScanChecked, rgb18reduceChecked_eq d c h1 h2]
    simp only
    by_cases hmem : rgb18reduce d c ∈ quant
    · simp only [hmem, if_true]
      exact ih quant cnt
    · simp only [hmem, if_false]
      by_cases hbrk : maxfg < cnt + 1
      · simp only [hbrk, if_true]
        exact ⟨_, rfl⟩
      · simp only [hbrk, if_false]
        exact ih _ _

lemma reduceScanChecked_256 (maxfg d : Nat) (hd : 256 ≤ d) (l : List Nat)
    (quant : List Nat) (cnt : Nat) (r : List Nat × Nat)
    (hr : reduceScanChecked maxfg d l quant cnt = some r) : r.2 = cnt := by
  cases l with
  | nil =>
    rw [reduceScanChecked] at hr
    have := Option.some.inj hr
    subst this
    rfl
  | cons c rest =>
    rw [reduceScanChecked, rgb18reduceChecked_none d c hd] at hr
    exact absurd hr (by simp)

lemma reduceLoopChecked_divisor_le (maxfg : Nat) (orig : List Nat) :
    ∀ f d c q r, reduceLoopChecked maxfg orig f d c q = some r → d ≤ r.2.2 := by
  intro f
  induction f with
  | zero =>
    intro d c q r hr
    exact absurd hr (by simp [reduceLoopChecked])
  | succ f ih =>
    intro d c q r hr
    rw [reduceLoopChecked] at hr
    by_cases hc : c ≤ maxfg
    · simp only [hc, if_true] at hr
      have := Option.some.inj hr
      subst this
      exact le_refl d
    · simp only [hc, if_false] at hr
      cases hsc : reduceScanChecked maxfg (d + 1) orig [] 0 with
      | none =>
        rw [hsc] at hr
        exact absurd hr (by simp)
      | some res =>
        rw [hsc] at hr
        simp only at hr
        exact le_trans (by omega) (ih (d + 1) res.2 res.1 r hr)

lemma reduceLoopChecked_same_divisor (maxfg : Nat) (orig : List Nat) :
    ∀ f d c q r, reduceLoopChecked maxfg orig f d c q = some r → r.2.2 = d →
      r = (q, c, d) := by
  intro f
  induction f with
  | zero =>
    intro d c q r hr _
    exact absurd hr (by simp [reduceLoopChecked])
  | succ f ih =>
    intro d c q r hr hd
    rw [reduceLoopChecked] at hr
    by_cases hc : c ≤ maxfg
    · simp only [hc, if_true] at hr
      exact (Option.some.inj hr).symm
    · simp only [hc, if_false] at hr
      cases hsc : reduceScanChecked maxfg (d + 1) orig [] 0 with
      | none =>
        rw [hsc] at hr
        exact absurd hr (by simp)
      | some res =>
        rw [hsc] at hr
        simp only at hr
        have := reduceLoopChecked_divisor_le maxfg orig f (d + 1) res.2 res.1 r hr
        omega

lemma reduceLoopChecked_inv (maxfg : Nat) (orig : List Nat) :
    ∀ f d c q r, reduceLoopChecked maxfg orig f d c q = some r → r.2.2 ≠ d →
      r.2.1 = r.1.length ∧ List.Sorted (· < ·) r.1 := by
  intro f
  induction f with
  | zero =>
    intro d c q r hr _
    exact absurd hr (by simp [reduceLoopChecked])
  | succ f ih =>
    intro d c q r hr hd
    rw [reduceLoopChecked] at hr
    by_cases hc : c ≤ maxfg
    · simp only [hc, if_true] at hr
      have := Option.some.inj hr
      subst this
      exact absurd rfl hd
    · simp only [hc, if_false] at hr
      cases hsc : reduceScanChecked maxfg (d + 1) orig [] 0 with
      | none =>
        rw [hsc] at hr
        exact absurd hr (by simp)
      | some res =>
        rw [hsc] at hr
        simp only at hr
        by_cases hr2 : r.2.2 = d + 1
        · have heq := reduceLoopChecked_same_divisor maxfg orig f (d + 1) res.2 res.1 r hr hr2
          subst heq
          exact reduceScanChecked_inv maxfg (d + 1) orig [] 0 (res.1, res.2) rfl (by simp) (by
            rw [hsc])
        · exact ih (d + 1) res.2 res.1 r hr hr2

/-! ### Why divisor 128 suffices when `max_fg_colors ≥ 8` -/

/-- The eight "corner" Rgb18 keys: every 6-bit channel either `0` or `63`
(the packings of channel values `0` and `255`).  At any divisor whose
bucket count `c` is `2`, every key reduces into this set. -/
def cornerKeys : List Nat :=
  [0, 63, 4032, 4095, 258048, 258111, 262080, 262143]

lemma rgb18reduce_128_mem (v : Nat) : rgb18reduce 128 v ∈ cornerKeys := by
  have h0 : rgb18get v 0 * 2 / 256 = 0 ∨ rgb18get v 0 * 2 / 256 = 1 := by
    have := rgb18get_lt v 0
    omega
  have h1 : rgb18get v 1 * 2 / 256 = 0 ∨ rgb18get v 1 * 2 / 256 = 1 := by
    have := rgb18get_lt v 1
    omega
  have h2 : rgb18get v 2 * 2 / 256 = 0 ∨ rgb18get v 2 * 2 / 256 = 1 := by
    have := rgb18get_lt v 2
    omega
  have hred : rgb18reduce 128 v =
      rgb18pack (255 * (rgb18get v 0 * 2 / 256)) (255 * (rgb18get v 1 * 2 / 256))
        (255 * (rgb18get v 2 * 2 / 256)) := by
    simp only [rgb18reduce]
    norm_num
  rw [hred]
  rcases h0 with h0 | h0 <;> rcases h1 with h1 | h1 <;> rcases h2 with h2 | h2 <;>
    rw [h0, h1, h2] <;> decide

lemma nodup_subset_length (l s : List Nat) (hn : l.Nodup) (hsub : ∀ x ∈ l, x ∈ s) :
    l.length ≤ s.length := by
  have h1 : l.toFinset.card = l.length := List.toFinset_card_of_nodup hn
  have h2 : l.toFinset ⊆ s.toFinset := by
    intro x hx
    rw [List.mem_toFinset] at hx ⊢
    exact hsub x hx
  have h3 := Finset.card_le_card h2
  have h4 := s.toFinset_card_le
  omega

lemma reduceScanChecked_128 (maxfg : Nat) (hmax : 8 ≤ maxfg) (l : List Nat) :
    ∀ quant cnt, cnt = quant.length → List.Sorted (· < ·) quant →
      (∀ x ∈ quant, x ∈ cornerKeys) →
      ∃ r, reduceScanChecked maxfg 128 l quant cnt = some r ∧ r.2 ≤ 8 := by
  induction l with
  | nil =>
    intro quant cnt h1 h2 h3
    refine ⟨(quant, cnt), rfl, ?_⟩
    have hle := nodup_subset_length quant cornerKeys h2.nodup h3
    have h8 : cornerKeys.length = 8 := rfl
    omega
  | cons c rest ih =>
    intro quant cnt h1 h2 h3
    rw [reduceScanChecked, rgb18reduceChecked_eq 128 c (by omega) (by omega)]
    simp only
    by_cases hmem : rgb18reduce 128 c ∈ quant
    · simp only [hmem, if_true]
      exact ih quant cnt h1 h2 h3
    · simp only [hmem, if_false]
      have hlen : cnt + 1 = (insertSorted (rgb18reduce 128 c) quant).length := by
        rw [insertSorted_length_of_not_mem _ _ hmem, h1]
      have hsort := insertSorted_sorted (rgb18reduce 128 c) quant h2
      have hsub : ∀ x ∈ insertSorted (rgb18reduce 128 c) quant, x ∈ cornerKeys := by
        intro x hx
        rcases (insertSorted_mem _ x quant).1 hx with rfl | hx
        · exact rgb18reduce_128_mem c
        · exact h3 x hx
      have hle8 : cnt + 1 ≤ 8 := by
        have hle := nodup_subset_length _ cornerKeys hsort.nodup hsub
        have h8 : cornerKeys.length = 8 := rfl
        omega
      have hbrk : ¬(maxfg < cnt + 1) := by omega
      simp only [hbrk, if_false]
      exact ih _ _ hlen hsort hsub

lemma reduceLoopChecked_exit (maxfg : Nat) (orig : List Nat) (hmax : 8 ≤ maxfg) :
    ∀ f d c q, 129 ≤ d + f + 1 → (c ≤ maxfg ∨ d ≤ 127) →
      ∃ r, reduceLoopChecked maxfg orig (f + 1) d c q = some r ∧ r.2.1 ≤ maxfg := by
  intro f
  induction f with
  | zero =>
    intro d c q hdf hpre
    have hc : c ≤ maxfg := by omega
    rw [reduceLoopChecked]
    simp only [hc, if_true]
    exact ⟨(q, c, d), rfl, hc⟩
  | succ f ih =>
    intro d c q hdf hpre
    rw [reduceLoopChecked]
    by_cases hc : c ≤ maxfg
    · simp only [hc, if_true]
      exact ⟨(q, c, d), rfl, hc⟩
    · have hd : d ≤ 127 := by omega
      simp only [hc, if_false]
      by_cases hd2 : d = 127
      · obtain ⟨res, hres, hres8⟩ :=
          reduceScanChecked_128 maxfg hmax orig [] 0 rfl (by simp) (by simp)
        subst hd2
        rw [hres]
        simp only
        exact ih 128 res.2 res.1 (by omega) (Or.inl (by omega))
      · obtain ⟨res, hres⟩ :=
          reduceScanChecked_isSome maxfg (d + 1) (by omega) (by omega) orig [] 0
        rw [hres]
        simp only
        exact ih (d + 1) res.2 res.1 (by omega) (Or.inr (by omega))

lemma reduceLoopChecked_of_le (maxfg : Nat) (orig : List Nat) (f d c : Nat)
    (q : List Nat) (hc : c ≤ maxfg) :
    reduceLoopChecked maxfg orig (f + 1) d c q = some (q, c, d) := by
  rw [reduceLoopChecked]
  simp [hc]

lemma reduceLoopChecked_stable (maxfg : Nat) (orig : List Nat) :
    ∀ f g d c q, 257 ≤ d + f + 1 → (c ≤ maxfg ∨ d ≤ 255) →
      reduceLoopChecked maxfg orig (f + 1 + g) d c q =
        reduceLoopChecked maxfg orig (f + 1) d c q := by
  intro f
  induction f with
  | zero =>
    intro g d c q hdf hpre
    have hc : c ≤ maxfg := by omega
    have hshape : (0 : Nat) + 1 + g = g + 1 := by omega
    rw [hshape, reduceLoopChecked_of_le maxfg orig g d c q hc,
      reduceLoopChecked_of_le maxfg orig 0 d c q hc]
  | succ f ih =>
    intro g d c q hdf hpre
    have hshape : f + 1 + 1 + g = (f + 1 + g) + 1 := by omega
    rw [hshape, reduceLoopChecked, reduceLoopChecked]
    by_cases hc : c ≤ maxfg
    · simp only [hc, if_true]
    · simp only [hc, if_false]
      have hd : d ≤ 255 := by omega
      cases hsc : reduceScanChecked maxfg (d + 1) orig [] 0 with
      | none => rfl
      | some res =>
        simp only
        by_cases hd2 : d = 255
        · have hres0 : res.2 = 0 := by
            apply reduceScanChecked_256 maxfg (d + 1) (by omega) orig [] 0 res hsc
          exact ih g (d + 1) res.2 res.1 (by omega) (Or.inl (by omega))
        · exact ih g (d + 1) res.2 res.1 (by omega) (Or.inr (by omega))

/-! ### The fallible Default pipeline -/

/-- Palette selection over the fallible loop (`if (divisor == 4)
quantized_colors = original_colors`); `none` when the reduction search
crashes on a division by zero. -/
def defaultReduceChecked (maxfg : Nat) (orig : List Nat) (counter : Nat) :
    Option (List Nat × Nat × Nat) :=
  match reduceLoopChecked maxfg orig 256 4 counter [] with
  | none => none
  | some res => some (if res.2.2 = 4 then orig else res.1, res.2.1, res.2.2)

/-- `DefaultQuantizer::operator()` with the reduction search's
division-by-zero made explicit: `none` when the search crashes (the
program aborts mid-call, after the header, emitting no palette),
otherwise exactly the total pipeline's output. -/
def defaultQuantizerChecked (maxfg : Nat) (fg bg : Renderer) (w h : Nat) (bc0 : Rgb)
    (hf0 hb0 : Bool) : Option (List Out × Rgb × Bool × Bool) :=
  if fg.tag = bg.tag then
    some ((dummyQuantizer w h).1, (dummyQuantizer w h).2, hf0, true)
  else
    let res := defaultAnalysis fg bg w h hf0 hb0
    match defaultReduceChecked maxfg res.1.orig res.1.counter with
    | none => none
    | some red =>
      some (Out.header w h ::
          (paletteBlock red.2.1 red.1 ++
            runWords (defColorMap red.2.2 res.1.orig red.1) res.2),
        bg.pix 0 0, res.1.hf, res.1.hb)

lemma defaultReduceChecked_spec (maxfg : Nat) (orig : List Nat) (counter : Nat)
    (hmax : 8 ≤ maxfg) (hcnt : counter = orig.length)
    (hsort : List.Sorted (· < ·) orig) :
    ∃ pal cnt d, defaultReduceChecked maxfg orig counter = some (pal, cnt, d) ∧
      cnt = pal.length ∧ pal.length ≤ maxfg ∧ List.Sorted (· < ·) pal := by
  obtain ⟨r, hr, hle⟩ :=
    reduceLoopChecked_exit maxfg orig hmax 255 4 counter [] (by omega) (Or.inr (by omega))
  have h256 : (255 : Nat) + 1 = 256 := rfl
  rw [h256] at hr
  rw [defaultReduceChecked, hr]
  by_cases hd : r.2.2 = 4
  · have heq := reduceLoopChecked_same_divisor maxfg orig 256 4 counter [] r hr hd
    refine ⟨orig, counter, 4, ?_, hcnt, ?_, hsort⟩
    · rw [heq]
      simp
    · rw [heq] at hle
      simp only at hle
      omega
  · have hprops := reduceLoopChecked_inv maxfg orig 256 4 counter [] r hr hd
    refine ⟨r.1, r.2.1, r.2.2, ?_, hprops.1, by omega, hprops.2⟩
    simp [hd]

lemma defaultReduceChecked_agree (maxfg : Nat) (orig : List Nat) (counter : Nat)
    (r : List Nat × Nat × Nat)
    (hr : defaultReduceChecked maxfg orig counter = some r) :
    defaultReduce maxfg orig counter = r := by
  rw [defaultReduceChecked] at hr
  cases hl : reduceLoopChecked maxfg orig 256 4 counter [] with
  | none =>
    rw [hl] at hr
    exact absurd hr (by simp)
  | some res =>
    rw [hl] at hr
    simp only at hr
    rw [defaultReduce, reduceLoopChecked_agree maxfg orig 256 4 counter [] res hl]
    exact Option.some.inj hr

lemma defaultQuantizerChecked_agree (maxfg : Nat) (fg bg : Renderer) (w h : Nat)
    (bc0 : Rgb) (hf0 hb0 : Bool) (r : List Out × Rgb × Bool × Bool)
    (hr : defaultQuantizerChecked maxfg fg bg w h bc0 hf0 hb0 = some r) :
    defaultQuantizer maxfg fg bg w h bc0 hf0 hb0 = r := by
  by_cases htag : fg.tag = bg.tag
  · simp only [defaultQuantizerChecked, htag, if_true] at hr
    simp only [defaultQuantizer, htag, if_true]
    exact Option.some.inj hr
  · simp only [defaultQuantizerChecked, htag, if_false] at hr
    simp only [defaultQuantizer, htag, if_false]
    cases hd : defaultReduceChecked maxfg (defaultAnalysis fg bg w h hf0 hb0).1.orig
        (defaultAnalysis fg bg w h hf0 hb0).1.counter with
    | none =>
      rw [hd] at hr
      exact absurd hr (by simp)
    | some red =>
      rw [hd] at hr
      simp only at hr
      rw [defaultReduceChecked_agree _ _ _ red hd]
      exact Option.some.inj hr

/-! ### Claims C2 and C3 (corrected) -/

/-- Claim C3 (amended): for `max_fg_colors ≥ 8` the palette-reduction
search terminates normally within the 256 iterations of fuel — by divisor
128 the two-level bucketing (`c = 2`) leaves at most 8 distinct reduced
colors, so the exit count is at most `max_fg_colors` — and granting any
further fuel never changes the result.  (For `max_fg_colors ≤ 7` the
search can reach divisor 256, where `Rgb18::reduce` divides by zero; see
the counterexample.) -/
theorem claim_C3 (maxfg c0 : Nat) (orig : List Nat) (hmax : 8 ≤ maxfg) :
    (∃ r, reduceLoopChecked maxfg orig 256 4 c0 [] = some r ∧ r.2.1 ≤ maxfg) ∧
    ∀ g, reduceLoopChecked maxfg orig (256 + g) 4 c0 [] =
      reduceLoopChecked maxfg orig 256 4 c0 [] := by
  constructor
  · exact reduceLoopChecked_exit maxfg orig hmax 255 4 c0 [] (by omega) (Or.inr (by omega))
  · intro g
    have hst := reduceLoopChecked_stable maxfg orig 255 g 4 c0 [] (by omega) (Or.inr (by omega))
    have hshape : 255 + 1 + g = 256 + g := by omega
    rw [hshape] at hst
    exact hst

/-- The original C3 statement fails on the code: with `max_fg_colors = 7`
and the eight corner colors present, the reduced count stays `8` through
divisor 255 (where `c = 2`), so the search reaches divisor 256 — where
`Rgb18::reduce` divides by zero — instead of terminating within 256
iterations. -/
theorem claim_C3_counterexample :
    reduceLoopChecked 7 cornerKeys 256 4 8 [] = none := by decide

theorem claim_C3_witness :
    8 ≤ 8 ∧
      ((∃ r, reduceLoopChecked 8 [0, 1, 63, 4032, 4095, 258048, 258111, 262080, 262143]
            256 4 9 [] = some r ∧ r.2.1 ≤ 8) ∧
        ∀ g, reduceLoopChecked 8 [0, 1, 63, 4032, 4095, 258048, 258111, 262080, 262143]
            (256 + g) 4 9 [] =
          reduceLoopChecked 8 [0, 1, 63, 4032, 4095, 258048, 258111, 262080, 262143]
            256 4 9 []) :=
  ⟨by decide, claim_C3 8 9 [0, 1, 63, 4032, 4095, 258048, 258111, 262080, 262143] (by decide)⟩

/-- Claim C2 (amended): with distinct handles and `max_fg_colors ≥ 8` —
so the reduction search completes without `Rgb18::reduce`'s division by
zero — the Default quantizer's emitted palette holds at most
`max_fg_colors` entries, written in ascending Rgb18 order; output indices
`0 .. count - 1` are assigned over the final palette in that ascending
order; the sentinel key maps to `0xfff`; and the fallible pipeline agrees
with the total one.  (For `max_fg_colors ≤ 7` there are inputs on which
the search crashes and no palette is emitted; see the counterexample.) -/
theorem claim_C2 (maxfg : Nat) (fg bg : Renderer) (w h : Nat) (bc0 : Rgb)
    (hf0 hb0 : Bool) (htag : fg.tag ≠ bg.tag) (hmax : 8 ≤ maxfg) :
    ∃ pal cnt divisor,
      defaultReduceChecked maxfg (defaultAnalysis fg bg w h hf0 hb0).1.orig
          (defaultAnalysis fg bg w h hf0 hb0).1.counter = some (pal, cnt, divisor) ∧
      defaultQuantizerChecked maxfg fg bg w h bc0 hf0 hb0 =
        some (Out.header w h ::
            (paletteBlock cnt pal ++
              runWords (defColorMap divisor (defaultAnalysis fg bg w h hf0 hb0).1.orig pal)
                (defaultAnalysis fg bg w h hf0 hb0).2),
          bg.pix 0 0, (defaultAnalysis fg bg w h hf0 hb0).1.hf,
          (defaultAnalysis fg bg w h hf0 hb0).1.hb) ∧
      defaultQuantizerChecked maxfg fg bg w h bc0 hf0 hb0 =
        some (defaultQuantizer maxfg fg bg w h bc0 hf0 hb0) ∧
      cnt = pal.length ∧
      pal.length ≤ maxfg ∧
      List.Sorted (· < ·) pal ∧
      (∀ i (hi : i < pal.length),
        mapLookup (buildIndexMap pal 0) (pal.get ⟨i, hi⟩) = i) ∧
      defColorMap divisor (defaultAnalysis fg bg w h hf0 hb0).1.orig pal none = 0xfff := by
  have hinv := defaultAnalysis_inv fg bg w h hf0 hb0
  obtain ⟨pal, cnt, divisor, hred, hcnt, hlen, hsort⟩ :=
    defaultReduceChecked_spec maxfg (defaultAnalysis fg bg w h hf0 hb0).1.orig
      (defaultAnalysis fg bg w h hf0 hb0).1.counter hmax hinv.1 hinv.2
  have hstream : defaultQuantizerChecked maxfg fg bg w h bc0 hf0 hb0 =
      some (Out.header w h ::
          (paletteBlock cnt pal ++
            runWords (defColorMap divisor (defaultAnalysis fg bg w h hf0 hb0).1.orig pal)
              (defaultAnalysis fg bg w h hf0 hb0).2),
        bg.pix 0 0, (defaultAnalysis fg bg w h hf0 hb0).1.hf,
        (defaultAnalysis fg bg w h hf0 hb0).1.hb) := by
    simp only [defaultQuantizerChecked, htag, if_false]
    rw [hred]
  have hagree := defaultQuantizerChecked_agree maxfg fg bg w h bc0 hf0 hb0 _ hstream
  refine ⟨pal, cnt, divisor, hred, hstream, ?_, hcnt, hlen, hsort, ?_, rfl⟩
  · rw [hstream, hagree]
  · intro i hi
    simpa using mapLookup_buildIndexMap pal hsort.nodup 0 i hi

/-- An 8-pixel fg row holding all eight corner colors (each channel `0`
or `255`), over a uniform `(10, 10, 10)` background. -/
def cornerFg : Renderer :=
  ⟨0, fun _ x =>
    ⟨if x % 2 = 1 then 255 else 0,
     if x / 2 % 2 = 1 then 255 else 0,
     if x / 4 % 2 = 1 then 255 else 0⟩⟩

/-- The background handle for the corner-color counterexample image. -/
def cornerBg : Renderer :=
  ⟨1, fun _ _ => ⟨10, 10, 10⟩⟩

/-- The original C2 statement fails on the code: with `max_fg_colors = 7`
and the eight corner colors as foreground, the reduction search reaches
divisor 256 and divides by zero — the program aborts after the header and
emits no palette at all. -/
theorem claim_C2_counterexample :
    defaultQuantizerChecked 7 cornerFg cornerBg 8 1 ⟨9, 9, 9⟩ false false = none := by
  decide

theorem claim_C2_witness :
    (fgSample.tag ≠ bgSample.tag ∧ 8 ≤ 8) ∧
      (∃ pal cnt divisor,
        defaultReduceChecked 8 (defaultAnalysis fgSample bgSample 2 1 false false).1.orig
            (defaultAnalysis fgSample bgSample 2 1 false false).1.counter =
          some (pal, cnt, divisor) ∧
        defaultQuantizerChecked 8 fgSample bgSample 2 1 ⟨9, 9, 9⟩ false false =
          some (Out.header 2 1 ::
              (paletteBlock cnt pal ++
                runWords
                  (defColorMap divisor (defaultAnalysis fgSample bgSample 2 1 false false).1.orig pal)
                  (defaultAnalysis fgSample bgSample 2 1 false false).2),
            bgSample.pix 0 0, (defaultAnalysis fgSample bgSample 2 1 false false).1.hf,
            (defaultAnalysis fgSample bgSample 2 1 false false).1.hb) ∧
        defaultQuantizerChecked 8 fgSample bgSample 2 1 ⟨9, 9, 9⟩ false false =
          some (defaultQuantizer 8 fgSample bgSample 2 1 ⟨9, 9, 9⟩ false false) ∧
        cnt = pal.length ∧
        pal.length ≤ 8 ∧
        List.Sorted (· < ·) pal ∧
        (∀ i (hi : i < pal.length),
          mapLookup (buildIndexMap pal 0) (pal.get ⟨i, hi⟩) = i) ∧
        defColorMap divisor (defaultAnalysis fgSample bgSample 2 1 false false).1.orig pal
          none = 0xfff) :=
  ⟨⟨by decide, by decide⟩,
    claim_C2 8 fgSample bgSample 2 1 ⟨9, 9, 9⟩ false false (by decide) (by decide)⟩
